import Mathlib

/-!
Verification of the component-derivation core of `hydrate` (src/hydrate/cluster.py),
as a shallow embedding in Lean 4.

Modelling conventions:
* Python strings are Lean `String`; character-level reasoning goes through `String.data`.
* `str.split(delimiter)` with the one-character delimiter `"-"` (the only delimiter the
  program ever uses; the `delimiter` parameter of `get_first_word` defaults to `"-"` and is
  never overridden by any caller) is embedded as `splitChar`, a faithful model of Python's
  `str.split` for a single-character separator: `"".split("-") == [""]`,
  `"a--b".split("-") == ["a","","b"]`.
* Python `dict` (insertion-ordered since 3.7) is an association list `List (String × α)`:
  lookup finds the first (unique) matching key, inserting a new key appends at the end.
* The Kubernetes API client (`core_v1_api`) is modelled as a record of query results:
  each query either raises (modelled as `Except.error`) or returns the list of
  `metadata.name` strings that the source extracts from `ret.items`. The lister is fixed
  per cluster handle (the spec's "unchanged lister" assumption).
* Methods that read the API and mutate `self.namespaced_pods` are state-passing functions
  `Cluster → result × Cluster`; `get_namespaced_pods` additionally reports how many
  underlying API queries it issued (0 or 1), so that the memoization claims are statable.
  A Python exception raised by the API call propagates before any assignment to
  `self.namespaced_pods` runs, which the embedding mirrors by returning the unchanged
  cluster state together with `Except.error`.
-/

/-- Component data class (src/hydrate/component.py): identity is the name alone. -/
structure Component where
  name : String
deriving DecidableEq, Repr

/-- Python's `str.split(sep)` for a one-character separator `sep`, on the character list
of the string: always returns at least one word; an empty input gives `[[]]`. -/
def splitChar (delimiter : Char) : List Char → List (List Char)
  | [] => [[]]
  | c :: cs =>
    if c = delimiter then [] :: splitChar delimiter cs
    else
      match splitChar delimiter cs with
      | [] => [[c]]
      | w :: ws => (c :: w) :: ws

/-- Embedding of `get_first_word(string, delimiter="-")`:
`words = string.split(delimiter); return words[0]`. Python `split` never returns an
empty list, so indexing `words[0]` is total; `headD []` is its total rendering. -/
def get_first_word (string : String) (delimiter : Char) : String :=
  let words := splitChar delimiter string.data
  ⟨words.headD []⟩

/-- Python `key in dict` / `dict[key]` combined: first (unique) binding of the key in the
insertion-ordered association list. -/
def lookupKey (key : String) : List (String × α) → Option α
  | [] => none
  | (k, v) :: rest => if k = key then some v else lookupKey key rest

/-- One step of `ret_count[w] = ret_count.get(w, 0) + 1` on the insertion-ordered dict:
increment in place if the key is present, else append the key with count 1. -/
def updateCount (word : String) : List (String × Nat) → List (String × Nat)
  | [] => [(word, 1)]
  | (k, v) :: rest =>
    if k = word then (k, v + 1) :: rest else (k, v) :: updateCount word rest

/-- Embedding of `count_first_word(str_list)`: for each phrase the source computes
`words = phrase.split("-")` and increments `ret_count[words[0]]`; `words[0]` is exactly
`get_first_word phrase '-'`. The returned association list is the insertion-ordered dict. -/
def count_first_word (str_list : List String) : List (String × Nat) :=
  str_list.foldl (fun ret_count phrase => updateCount (get_first_word phrase '-') ret_count) []

/-- Stable insert for a descending-by-value sort: the inserted pair came earlier in the
input than everything already in the list, so it is placed before the first entry whose
value is less than or equal to its own. -/
def insertByValueDesc (x : String × Nat) : List (String × Nat) → List (String × Nat)
  | [] => [x]
  | y :: ys => if y.2 ≤ x.2 then x :: y :: ys else y :: insertByValueDesc x ys

/-- Embedding of `sort_dict_by_value(d)`, i.e. `[(k, d[k]) for k in sorted(d, key=d.get,
reverse=True)]`. Python's `sorted` is a stable sort and `reverse=True` keeps equal
elements in their original order, so its denotation on the insertion-ordered dict is the
unique stable descending-by-value sort of the association list, realised here by a stable
insertion sort. -/
def sort_dict_by_value (d : List (String × Nat)) : List (String × Nat) :=
  d.foldr insertByValueDesc []

/-- Model of the `core_v1_api` client handle: results of the two queries the core uses,
already reduced to the `metadata.name` lists the source extracts from `ret.items`, or an
`Except.error` when the underlying call raises. -/
structure CoreV1Api where
  list_namespace : Except String (List String)
  list_namespaced_pod : String → Except String (List String)

/-- Cluster handle: the connected API client and the `self.namespaced_pods` memoization
dict (insertion-ordered association list from namespace to pod-name list). -/
structure Cluster where
  core_v1_api : CoreV1Api
  namespaced_pods : List (String × List String)

/-- Embedding of `Cluster.get_namespaces`: query the API for namespaces; the extraction
loop over `ret.items` is folded into the model, which returns the name list directly. -/
def Cluster.get_namespaces (self : Cluster) : Except String (List String) :=
  self.core_v1_api.list_namespace

/-- Embedding of `Cluster.get_namespaced_pods(namespace)`: return the cached list when
the namespace is a key of `self.namespaced_pods`; otherwise query the API, store the
result, and return it. The third component counts underlying API queries issued by this
call (0 on a cache hit, 1 otherwise). If the API call raises, the exception propagates
before the cache assignment, so the cluster state is returned unchanged. -/
def Cluster.get_namespaced_pods (self : Cluster) (ns : String) :
    Except String (List String) × Cluster × Nat :=
  match lookupKey ns self.namespaced_pods with
  | some pods => (Except.ok pods, self, 0)
  | none =>
    match self.core_v1_api.list_namespaced_pod ns with
    | Except.error e => (Except.error e, self, 1)
    | Except.ok pod_list =>
      (Except.ok pod_list,
        ⟨self.core_v1_api, self.namespaced_pods ++ [(ns, pod_list)]⟩, 1)

/-- Embedding of `Cluster.remove_defaults(namespaces)`: keep, in order, the namespaces
not in the ignore set `{"default", "kube-public", "kube-system"}`. -/
def Cluster.remove_defaults (namespaces : List String) : List String :=
  namespaces.foldl
    (fun ret_list ns =>
      if ns ∈ ["default", "kube-public", "kube-system"] then ret_list
      else ret_list ++ [ns])
    []

/-- Embedding of `Cluster.process_cluster_objects(object_list)`: count first words, sort
the dict by value descending, drop the frequencies and wrap as `Component`s. -/
def Cluster.process_cluster_objects (object_list : List String) : List Component :=
  let comp_list := count_first_word object_list
  let comp_list := sort_dict_by_value comp_list
  comp_list.map (fun component => Component.mk component.1)

/-- Embedding of `Cluster.get_components`: list namespaces, drop the reserved ones; if
any remain, each becomes a `Component` named by its first `'-'`-delimited word, in order;
otherwise fall back to the pods of the `"default"` namespace, grouped and ranked by
`process_cluster_objects`. An exception from either API query propagates unchanged
(nothing is caught), with whatever cluster state existed when it was raised. -/
def Cluster.get_components (self : Cluster) : Except String (List Component) × Cluster :=
  match self.get_namespaces with
  | Except.error e => (Except.error e, self)
  | Except.ok nss =>
    let namespaces := Cluster.remove_defaults nss
    if namespaces.isEmpty then
      match self.get_namespaced_pods "default" with
      | (Except.error e, c2, _) => (Except.error e, c2)
      | (Except.ok pods, c2, _) => (Except.ok (Cluster.process_cluster_objects pods), c2)
    else
      let components := namespaces
      let components := components.map (fun comp => get_first_word comp '-')
      let components := components.map (fun name => Component.mk name)
      (Except.ok components, self)

/-- Specification helper for reasoning about counts: add `n` further occurrences to an
optional existing count (`none` meaning the key is absent from the dict). -/
def addCount : Option Nat → Nat → Option Nat
  | some v, n => some (v + n)
  | none, n => if n = 0 then none else some n

/-- Iterated invocation of `get_namespaced_pods` for one namespace on one cluster handle:
returns the list of per-call results, the final cluster state, and the total number of
underlying API queries issued across all calls. -/
def callsRepeat (ns : String) : Cluster → Nat →
    List (Except String (List String)) × Cluster × Nat
  | c, 0 => ([], c, 0)
  | c, k + 1 =>
    match c.get_namespaced_pods ns with
    | (r, c2, q) =>
      match callsRepeat ns c2 k with
      | (rs, c3, qs) => (r :: rs, c3, q + qs)

/-! Helper lemmas about the tokenizer. -/

theorem splitChar_ne_nil (d : Char) (l : List Char) : splitChar d l ≠ [] := by
  cases l with
  | nil => simp [splitChar]
  | cons c cs =>
    simp only [splitChar]
    split
    · simp
    · split <;> simp

theorem splitChar_headD_of_not_mem (d : Char) (l : List Char) (h : d ∉ l) :
    (splitChar d l).headD [] = l := by
  induction l with
  | nil => rfl
  | cons c cs ih =>
    have hcd : c ≠ d := fun hc => h (hc ▸ List.mem_cons_self c cs)
    have hcs : d ∉ cs := fun hm => h (List.mem_cons_of_mem c hm)
    simp only [splitChar, if_neg (fun hc => hcd hc)]
    cases hsp : splitChar d cs with
    | nil => exact absurd hsp (splitChar_ne_nil d cs)
    | cons w ws =>
      have : w = cs := by
        have := ih hcs
        rw [hsp] at this
        exact this
      simp [this]

theorem splitChar_headD_append (d : Char) (a b : List Char) (ha : d ∉ a) :
    (splitChar d (a ++ d :: b)).headD [] = a := by
  induction a with
  | nil => simp [splitChar]
  | cons c a' ih =>
    have hcd : c ≠ d := fun hc => ha (hc ▸ List.mem_cons_self c a')
    have ha' : d ∉ a' := fun hm => ha (List.mem_cons_of_mem c hm)
    simp only [List.cons_append, splitChar, if_neg (fun hc => hcd hc)]
    cases hsp : splitChar d (a' ++ d :: b) with
    | nil => exact absurd hsp (splitChar_ne_nil d (a' ++ d :: b))
    | cons w ws =>
      have : w = a' := by
        have := ih ha'
        rw [hsp] at this
        exact this
      simp [this]

/-- C6: FirstToken (get_first_word) returns, for every string, the substring before the
first occurrence of the delimiter, or the entire string when the delimiter is absent,
and returns the empty string for empty-string input. -/
theorem get_first_word_spec (s : String) (d : Char) :
    (d ∉ s.data → get_first_word s d = s)
    ∧ (∀ a b : List Char, s.data = a ++ d :: b → d ∉ a → (get_first_word s d).data = a)
    ∧ get_first_word "" d = "" := by
  refine ⟨fun h => ?_, fun a b hs ha => ?_, ?_⟩
  · apply String.ext
    simpa [get_first_word] using splitChar_headD_of_not_mem d s.data h
  · simpa [get_first_word, hs] using splitChar_headD_append d a b ha
  · apply String.ext
    simpa [get_first_word] using splitChar_headD_of_not_mem d [] (by simp)

/-- C6 witness evaluations: the three spec examples instantiated through the theorem. -/
theorem get_first_word_spec_witness :
    get_first_word "foo-bar-baz" '-' = "foo"
    ∧ get_first_word "noeq" '-' = "noeq"
    ∧ get_first_word "" '-' = "" := by
  refine ⟨?_, ?_, (get_first_word_spec "" '-').2.2⟩
  · apply String.ext
    exact (get_first_word_spec "foo-bar-baz" '-').2.1
      ['f', 'o', 'o'] "bar-baz".data (by decide) (by decide)
  · exact (get_first_word_spec "noeq" '-').1 (by decide)

/-! Helper lemmas about the reserved-namespace filter. -/

theorem remove_defaults_foldl (l acc : List String) :
    l.foldl
        (fun ret_list ns =>
          if ns ∈ ["default", "kube-public", "kube-system"] then ret_list
          else ret_list ++ [ns])
        acc
      = acc ++ l.filter (fun ns => ns ∉ ["default", "kube-public", "kube-system"]) := by
  induction l generalizing acc with
  | nil => simp
  | cons ns l ih =>
    simp only [List.foldl_cons]
    rw [ih]
    by_cases h : ns ∈ ["default", "kube-public", "kube-system"]
    · rw [if_pos h, List.filter_cons, if_neg (by simp [h])]
    · rw [if_neg h, List.filter_cons, if_pos (by simp [h])]
      simp

theorem remove_defaults_eq_filter (l : List String) :
    Cluster.remove_defaults l
      = l.filter (fun ns => ns ∉ ["default", "kube-public", "kube-system"]) := by
  exact remove_defaults_foldl l []

/-- C7: remove_defaults removes exactly the elements equal to one of the three reserved
names, keeps every other element with its multiplicity, and preserves the relative order
of kept elements (the output is a sublist of the input). -/
theorem remove_defaults_spec (l : List String) :
    (Cluster.remove_defaults l).Sublist l
    ∧ ∀ x : String,
        (Cluster.remove_defaults l).count x
          = if x ∈ ["default", "kube-public", "kube-system"] then 0 else l.count x := by
  rw [remove_defaults_eq_filter]
  refine ⟨List.filter_sublist l, fun x => ?_⟩
  by_cases h : x ∈ ["default", "kube-public", "kube-system"]
  · rw [if_pos h, List.count_eq_zero]
    intro hx
    have := List.of_mem_filter hx
    simp [h] at this
  · rw [if_neg h, List.count_filter]
    simp [h]

/-! Helper lemmas about the stable descending sort. -/

theorem insertByValueDesc_perm (x : String × Nat) (l : List (String × Nat)) :
    List.Perm (insertByValueDesc x l) (x :: l) := by
  induction l with
  | nil => rfl
  | cons y ys ih =>
    simp only [insertByValueDesc]
    split
    · rfl
    · exact List.Perm.trans (List.Perm.cons y ih) (List.Perm.swap x y ys)

theorem sort_dict_by_value_perm (d : List (String × Nat)) :
    List.Perm (sort_dict_by_value d) d := by
  induction d with
  | nil => rfl
  | cons x xs ih =>
    simp only [sort_dict_by_value, List.foldr_cons]
    exact List.Perm.trans (insertByValueDesc_perm x _) (List.Perm.cons x ih)

theorem insertByValueDesc_pairwise (x : String × Nat) (l : List (String × Nat))
    (h : List.Pairwise (fun a b : String × Nat => b.2 ≤ a.2) l) :
    List.Pairwise (fun a b : String × Nat => b.2 ≤ a.2) (insertByValueDesc x l) := by
  induction l with
  | nil => simp [insertByValueDesc]
  | cons y ys ih =>
    rw [List.pairwise_cons] at h
    simp only [insertByValueDesc]
    split
    · rename_i hyx
      rw [List.pairwise_cons]
      refine ⟨fun a ha => ?_, List.pairwise_cons.mpr h⟩
      rcases List.mem_cons.mp ha with rfl | ha
      · exact hyx
      · exact Nat.le_trans (h.1 a ha) hyx
    · rename_i hyx
      rw [List.pairwise_cons]
      refine ⟨fun a ha => ?_, ih h.2⟩
      rcases List.mem_cons.mp ((insertByValueDesc_perm x ys).mem_iff.mp ha) with rfl | ha
      · exact Nat.le_of_not_le hyx
      · exact h.1 a ha

theorem sort_dict_by_value_pairwise (d : List (String × Nat)) :
    List.Pairwise (fun a b : String × Nat => b.2 ≤ a.2) (sort_dict_by_value d) := by
  induction d with
  | nil => simp [sort_dict_by_value]
  | cons x xs ih =>
    simp only [sort_dict_by_value, List.foldr_cons]
    exact insertByValueDesc_pairwise x _ ih

theorem insertByValueDesc_filter (x : String × Nat) (l : List (String × Nat)) (v : Nat) :
    (insertByValueDesc x l).filter (fun p => p.2 = v)
      = if x.2 = v then x :: l.filter (fun p => p.2 = v)
        else l.filter (fun p => p.2 = v) := by
  induction l with
  | nil =>
    simp only [insertByValueDesc, List.filter]
    by_cases h : x.2 = v <;> simp [h]
  | cons y ys ih =>
    simp only [insertByValueDesc]
    split
    · rename_i hyx
      by_cases h : x.2 = v <;> simp [List.filter, h]
    · rename_i hyx
      by_cases hy : y.2 = v
      · have hx : x.2 ≠ v := by
          intro hx
          exact hyx (by rw [hx, hy])
        simp [List.filter, hy, hx, ih]
      · by_cases h : x.2 = v <;> simp [List.filter, hy, h, ih]

theorem sort_dict_by_value_filter (d : List (String × Nat)) (v : Nat) :
    (sort_dict_by_value d).filter (fun p => p.2 = v)
      = d.filter (fun p => p.2 = v) := by
  induction d with
  | nil => rfl
  | cons x xs ih =>
    simp only [sort_dict_by_value, List.foldr_cons] at *
    rw [insertByValueDesc_filter]
    by_cases h : x.2 = v <;> simp [List.filter, h, ih]

/-- C3: sort_dict_by_value is a stable descending sort on counts: the output is a
permutation of the mapping, its counts are non-increasing, and for every count value the
entries carrying that value appear in the same relative order as in the input mapping
(insertion order). -/
theorem sort_dict_by_value_stable_desc (d : List (String × Nat)) :
    List.Perm (sort_dict_by_value d) d
    ∧ List.Pairwise (fun a b : String × Nat => b.2 ≤ a.2) (sort_dict_by_value d)
    ∧ ∀ v : Nat,
        (sort_dict_by_value d).filter (fun p => p.2 = v)
          = d.filter (fun p => p.2 = v) :=
  ⟨sort_dict_by_value_perm d, sort_dict_by_value_pairwise d,
    sort_dict_by_value_filter d⟩

example : get_first_word "foo-bar-baz" '-' = "foo" := by decide
example : get_first_word "noeq" '-' = "noeq" := by decide
example : get_first_word "" '-' = "" := by decide
example : count_first_word ["a-1", "a-2", "b-1"] = [("a", 2), ("b", 1)] := by decide
example : sort_dict_by_value [("a", 2), ("b", 1)] = [("a", 2), ("b", 1)] := by decide
example : sort_dict_by_value [("x", 1), ("y", 1)] = [("x", 1), ("y", 1)] := by decide
example :
    Cluster.remove_defaults
      ["default", "kube-system", "kube-public", "teamA-prod", "teamB-prod"] =
      ["teamA-prod", "teamB-prod"] := by decide

/-! Helper lemmas about the insertion-ordered frequency dict. -/

theorem lookupKey_updateCount (u w : String) (acc : List (String × Nat)) :
    lookupKey w (updateCount u acc)
      = if u = w then some ((lookupKey w acc).getD 0 + 1) else lookupKey w acc := by
  induction acc with
  | nil => by_cases h : u = w <;> simp [updateCount, lookupKey, h]
  | cons kv rest ih =>
    rcases kv with ⟨k, v⟩
    by_cases hku : k = u
    · subst hku
      by_cases hkw : k = w <;> simp [updateCount, lookupKey, hkw]
    · by_cases hkw : k = w
      · have huw : ¬ u = w := fun h => hku (hkw.trans h.symm)
        have hwu : ¬ w = u := fun h => hku (hkw.trans h)
        simp [updateCount, lookupKey, hku, hkw, huw, hwu]
      · simp [updateCount, lookupKey, hku, hkw, ih]

theorem map_fst_updateCount (u : String) (acc : List (String × Nat)) :
    (updateCount u acc).map Prod.fst
      = if u ∈ acc.map Prod.fst then acc.map Prod.fst
        else acc.map Prod.fst ++ [u] := by
  induction acc with
  | nil => simp [updateCount]
  | cons kv rest ih =>
    rcases kv with ⟨k, v⟩
    by_cases hku : k = u
    · subst hku
      simp [updateCount]
    · have huk : ¬ u = k := fun h => hku h.symm
      simp only [updateCount, if_neg hku, List.map_cons, ih]
      by_cases hm : u ∈ rest.map Prod.fst <;> simp [hm, huk]

theorem nodup_map_fst_updateCount (u : String) (acc : List (String × Nat))
    (h : (acc.map Prod.fst).Nodup) : ((updateCount u acc).map Prod.fst).Nodup := by
  rw [map_fst_updateCount]
  by_cases hm : u ∈ acc.map Prod.fst
  · simpa [hm] using h
  · simp only [hm, if_neg]
    simp [List.nodup_append, h, hm]

theorem lookupKey_eq_none_iff (w : String) (acc : List (String × α)) :
    lookupKey w acc = none ↔ w ∉ acc.map Prod.fst := by
  induction acc with
  | nil => simp [lookupKey]
  | cons kv rest ih =>
    rcases kv with ⟨k, v⟩
    by_cases hk : k = w
    · subst hk
      simp [lookupKey]
    · have : ¬ w = k := fun h => hk h.symm
      simp [lookupKey, hk, this, ih]

theorem lookupKey_of_mem_of_nodup (w : String) (n : α) (acc : List (String × α))
    (hmem : (w, n) ∈ acc) (hnd : (acc.map Prod.fst).Nodup) :
    lookupKey w acc = some n := by
  induction acc with
  | nil => simp at hmem
  | cons kv rest ih =>
    rcases kv with ⟨k, v⟩
    rcases List.mem_cons.mp hmem with heq | hmem'
    · cases heq
      simp [lookupKey]
    · have hk : ¬ k = w := by
        intro h
        subst h
        have : k ∈ rest.map Prod.fst :=
          List.mem_map.mpr ⟨(k, n), hmem', rfl⟩
        exact (List.nodup_cons.mp hnd).1 this
      simp [lookupKey, hk]
      exact ih hmem' (List.nodup_cons.mp hnd).2

theorem addCount_zero (o : Option Nat) : addCount o 0 = o := by
  cases o <;> simp [addCount]

theorem lookupKey_count_foldl (l : List String) (acc : List (String × Nat)) (w : String) :
    lookupKey w
        (l.foldl (fun ret_count phrase => updateCount (get_first_word phrase '-') ret_count) acc)
      = addCount (lookupKey w acc) ((l.map (fun s => get_first_word s '-')).count w) := by
  induction l generalizing acc with
  | nil => simp [addCount_zero]
  | cons s l ih =>
    simp only [List.foldl_cons, List.map_cons]
    rw [ih, lookupKey_updateCount]
    by_cases h : get_first_word s '-' = w
    · rw [if_pos h, List.count_cons, if_pos (by simp [h])]
      cases ho : lookupKey w acc with
      | some v => simp [addCount]; omega
      | none => simp [addCount]; omega
    · have hbeq : (get_first_word s '-' == w) = false := beq_eq_false_iff_ne.mpr h
      rw [if_neg h, List.count_cons, hbeq]
      simp

theorem lookupKey_count_first_word (l : List String) (w : String) :
    lookupKey w (count_first_word l)
      = if (l.map (fun s => get_first_word s '-')).count w = 0 then none
        else some ((l.map (fun s => get_first_word s '-')).count w) := by
  rw [count_first_word, lookupKey_count_foldl]
  simp [lookupKey, addCount]

theorem nodup_keys_count_foldl (l : List String) (acc : List (String × Nat))
    (h : (acc.map Prod.fst).Nodup) :
    (((l.foldl (fun ret_count phrase => updateCount (get_first_word phrase '-') ret_count) acc)).map
        Prod.fst).Nodup := by
  induction l generalizing acc with
  | nil => exact h
  | cons s l ih =>
    simp only [List.foldl_cons]
    exact ih _ (nodup_map_fst_updateCount _ _ h)

theorem nodup_keys_count_first_word (l : List String) :
    ((count_first_word l).map Prod.fst).Nodup :=
  nodup_keys_count_foldl l [] (by simp)

theorem mem_keys_count_first_word (l : List String) (w : String) :
    w ∈ (count_first_word l).map Prod.fst
      ↔ w ∈ l.map (fun s => get_first_word s '-') := by
  rw [← not_iff_not, ← lookupKey_eq_none_iff, lookupKey_count_first_word]
  by_cases h : (l.map (fun s => get_first_word s '-')).count w = 0
  · simp [h, List.count_eq_zero.mp h]
  · simp only [h, if_neg, if_false]
    simp [List.count_eq_zero] at h
    simp [h]

theorem count_first_word_value (l : List String) (w : String) (n : Nat)
    (hmem : (w, n) ∈ count_first_word l) :
    n = (l.map (fun s => get_first_word s '-')).count w := by
  have hl := lookupKey_of_mem_of_nodup w n (count_first_word l) hmem
    (nodup_keys_count_first_word l)
  rw [lookupKey_count_first_word] at hl
  by_cases h : (l.map (fun s => get_first_word s '-')).count w = 0
  · rw [if_pos h] at hl
    cases hl
  · rw [if_neg h] at hl
    exact (Option.some.inj hl).symm

/-! Helper lemmas about the memoization cache and the cluster operations. -/

theorem lookupKey_append_self (ns : String) (l : α) (cache : List (String × α))
    (h : lookupKey ns cache = none) : lookupKey ns (cache ++ [(ns, l)]) = some l := by
  induction cache with
  | nil => simp [lookupKey]
  | cons kv rest ih =>
    rcases kv with ⟨k, v⟩
    by_cases hk : k = ns
    · simp [lookupKey, hk] at h
    · simp only [lookupKey, if_neg hk] at h ⊢
      exact ih h

theorem get_namespaced_pods_hit (c : Cluster) (ns : String) (l : List String)
    (h : lookupKey ns c.namespaced_pods = some l) :
    c.get_namespaced_pods ns = (Except.ok l, c, 0) := by
  simp [Cluster.get_namespaced_pods, h]

theorem get_namespaced_pods_miss_ok (c : Cluster) (ns : String) (l : List String)
    (h1 : lookupKey ns c.namespaced_pods = none)
    (h2 : c.core_v1_api.list_namespaced_pod ns = Except.ok l) :
    c.get_namespaced_pods ns
      = (Except.ok l, ⟨c.core_v1_api, c.namespaced_pods ++ [(ns, l)]⟩, 1) := by
  simp [Cluster.get_namespaced_pods, h1, h2]

theorem get_namespaced_pods_miss_error (c : Cluster) (ns : String) (e : String)
    (h1 : lookupKey ns c.namespaced_pods = none)
    (h2 : c.core_v1_api.list_namespaced_pod ns = Except.error e) :
    c.get_namespaced_pods ns = (Except.error e, c, 1) := by
  simp [Cluster.get_namespaced_pods, h1, h2]

theorem callsRepeat_cached (ns : String) (l : List String) (c : Cluster)
    (h : lookupKey ns c.namespaced_pods = some l) (k : Nat) :
    callsRepeat ns c k = (List.replicate k (Except.ok l), c, 0) := by
  induction k with
  | zero => simp [callsRepeat]
  | succ k ih =>
    simp [callsRepeat, get_namespaced_pods_hit c ns l h, ih, List.replicate_succ]

/-- C4: for a fixed scope, get_namespaced_pods issues at most one underlying lister
query no matter how many times it is invoked on the same cluster handle (exactly
`min k 1` queries over `k` invocations, starting from a handle that has not yet cached
the scope), and every invocation returns the result of that single query. -/
theorem get_namespaced_pods_memoizes (c : Cluster) (ns : String) (l : List String)
    (k : Nat) (h1 : lookupKey ns c.namespaced_pods = none)
    (h2 : c.core_v1_api.list_namespaced_pod ns = Except.ok l) :
    (callsRepeat ns c k).1 = List.replicate k (Except.ok l)
    ∧ (callsRepeat ns c k).2.2 = min k 1 := by
  cases k with
  | zero => simp [callsRepeat]
  | succ k =>
    have hfirst := get_namespaced_pods_miss_ok c ns l h1 h2
    have hcached : lookupKey ns
        (⟨c.core_v1_api, c.namespaced_pods ++ [(ns, l)]⟩ : Cluster).namespaced_pods
          = some l :=
      lookupKey_append_self ns l c.namespaced_pods h1
    have hrest := callsRepeat_cached ns l _ hcached k
    constructor
    · simp [callsRepeat, hfirst, hrest, List.replicate_succ]
    · simp [callsRepeat, hfirst, hrest]

/-- C4 witness: three invocations on a fresh handle yield the query result three times
while issuing exactly one underlying query. -/
theorem get_namespaced_pods_memoizes_witness :
    (callsRepeat "default"
        ⟨⟨Except.ok [], fun _ => Except.ok ["web-1", "cache-1"]⟩, []⟩ 3).1
      = List.replicate 3 (Except.ok ["web-1", "cache-1"])
    ∧ (callsRepeat "default"
        ⟨⟨Except.ok [], fun _ => Except.ok ["web-1", "cache-1"]⟩, []⟩ 3).2.2 = min 3 1 :=
  get_namespaced_pods_memoizes
    ⟨⟨Except.ok [], fun _ => Except.ok ["web-1", "cache-1"]⟩, []⟩
    "default" ["web-1", "cache-1"] 3 rfl rfl

/-- C10: when the underlying lister query for an uncached scope fails, the exception
propagates with the memoization cache unchanged (the returned cluster state is the input
state), and a later call for the same scope issues the query again. -/
theorem get_namespaced_pods_error_no_cache (c : Cluster) (ns e : String)
    (h1 : lookupKey ns c.namespaced_pods = none)
    (h2 : c.core_v1_api.list_namespaced_pod ns = Except.error e) :
    c.get_namespaced_pods ns = (Except.error e, c, 1)
    ∧ ((c.get_namespaced_pods ns).2.1.get_namespaced_pods ns).2.2 = 1 := by
  have h := get_namespaced_pods_miss_error c ns e h1 h2
  exact ⟨h, by rw [h]; rw [get_namespaced_pods_miss_error c ns e h1 h2]⟩

/-- C10 witness: a failing query on a fresh handle leaves the cache empty and is issued
again by the next call. -/
theorem get_namespaced_pods_error_no_cache_witness :
    Cluster.get_namespaced_pods ⟨⟨Except.ok [], fun _ => Except.error "boom"⟩, []⟩ "default"
      = (Except.error "boom", ⟨⟨Except.ok [], fun _ => Except.error "boom"⟩, []⟩, 1)
    ∧ ((Cluster.get_namespaced_pods ⟨⟨Except.ok [], fun _ => Except.error "boom"⟩, []⟩
          "default").2.1.get_namespaced_pods "default").2.2 = 1 :=
  get_namespaced_pods_error_no_cache
    ⟨⟨Except.ok [], fun _ => Except.error "boom"⟩, []⟩ "default" "boom" rfl rfl

/-- C1: when the scope list has a non-empty remainder after removing the reserved names,
get_components returns exactly one Component per remaining scope, named by the scope's
first '-'-delimited token, in the same relative order (a plain map over the filtered
list, hence no sorting and no deduplication), and leaves the handle unchanged. -/
theorem get_components_nonreserved_path (api : CoreV1Api)
    (cache : List (String × List String)) (scopes : List String)
    (h1 : api.list_namespace = Except.ok scopes)
    (h2 : Cluster.remove_defaults scopes ≠ []) :
    Cluster.get_components ⟨api, cache⟩
      = (Except.ok ((Cluster.remove_defaults scopes).map
          (fun ns => Component.mk (get_first_word ns '-'))), ⟨api, cache⟩) := by
  have hne : (Cluster.remove_defaults scopes).isEmpty = false := by
    simpa [List.isEmpty_iff] using h2
  simp [Cluster.get_components, Cluster.get_namespaces, h1, hne, List.map_map,
    Function.comp]

/-- C1 witness: end-to-end scenario A, namespaces with two team scopes. -/
theorem get_components_nonreserved_path_witness :
    (Cluster.get_components
        ⟨⟨Except.ok ["default", "kube-system", "kube-public", "teamA-prod", "teamB-prod"],
          fun _ => Except.ok []⟩, []⟩).1
      = Except.ok [Component.mk "teamA", Component.mk "teamB"] := by
  rw [get_components_nonreserved_path
      ⟨Except.ok ["default", "kube-system", "kube-public", "teamA-prod", "teamB-prod"],
        fun _ => Except.ok []⟩
      [] ["default", "kube-system", "kube-public", "teamA-prod", "teamB-prod"]
      rfl (by decide)]
  rfl

/-- C5: calling get_components twice against an unchanged lister yields identical output
lists both times, even though the second call may be served from the memoization cache. -/
theorem get_components_idempotent (c : Cluster) :
    ((c.get_components).2.get_components).1 = (c.get_components).1 := by
  cases hn : c.core_v1_api.list_namespace with
  | error e => simp [Cluster.get_components, Cluster.get_namespaces, hn]
  | ok nss =>
    by_cases hre : (Cluster.remove_defaults nss).isEmpty = true
    · cases hl : lookupKey "default" c.namespaced_pods with
      | some pods =>
        simp [Cluster.get_components, Cluster.get_namespaces,
          Cluster.get_namespaced_pods, hn, hre, hl]
      | none =>
        cases hp : c.core_v1_api.list_namespaced_pod "default" with
        | error e =>
          simp [Cluster.get_components, Cluster.get_namespaces,
            Cluster.get_namespaced_pods, hn, hre, hl, hp]
        | ok l =>
          have hlook := lookupKey_append_self "default" l c.namespaced_pods hl
          simp [Cluster.get_components, Cluster.get_namespaces,
            Cluster.get_namespaced_pods, hn, hre, hl, hp, hlook]
    · simp [Cluster.get_components, Cluster.get_namespaces, hn, hre]

/-- C2: when every scope is reserved, get_components queries the pods of the "default"
scope, builds the insertion-ordered first-token frequency dict (distinct keys, one per
distinct token, counts equal to occurrence counts), ranks it by descending count, and
returns the keys wrapped as Components with the frequencies dropped. -/
theorem get_components_fallback_ranking (c : Cluster) (scopes objs : List String)
    (h1 : c.core_v1_api.list_namespace = Except.ok scopes)
    (h2 : Cluster.remove_defaults scopes = [])
    (h3 : lookupKey "default" c.namespaced_pods = none)
    (h4 : c.core_v1_api.list_namespaced_pod "default" = Except.ok objs) :
    ((c.get_components).1
        = Except.ok ((sort_dict_by_value (count_first_word objs)).map
            (fun p => Component.mk p.1)))
    ∧ ((count_first_word objs).map Prod.fst).Nodup
    ∧ (∀ w : String, w ∈ (count_first_word objs).map Prod.fst
          ↔ w ∈ objs.map (fun s => get_first_word s '-'))
    ∧ (∀ w n, (w, n) ∈ count_first_word objs
          → n = (objs.map (fun s => get_first_word s '-')).count w)
    ∧ List.Perm (sort_dict_by_value (count_first_word objs)) (count_first_word objs)
    ∧ List.Pairwise (fun a b : String × Nat => b.2 ≤ a.2)
        (sort_dict_by_value (count_first_word objs)) := by
  refine ⟨?_, nodup_keys_count_first_word objs, mem_keys_count_first_word objs,
    fun w n h => count_first_word_value objs w n h,
    sort_dict_by_value_perm _, sort_dict_by_value_pairwise _⟩
  have hempty : (Cluster.remove_defaults scopes).isEmpty = true := by simp [h2]
  simp [Cluster.get_components, Cluster.get_namespaces, Cluster.get_namespaced_pods,
    h1, hempty, h3, h4, Cluster.process_cluster_objects]

/-- C2 witness: end-to-end scenario B, all scopes reserved and pods web-1, web-2,
cache-1 in the default scope. -/
theorem get_components_fallback_ranking_witness :
    (Cluster.get_components
        ⟨⟨Except.ok ["default", "kube-system", "kube-public"],
          fun _ => Except.ok ["web-1", "web-2", "cache-1"]⟩, []⟩).1
      = Except.ok [Component.mk "web", Component.mk "cache"] := by
  have h := (get_components_fallback_ranking
      ⟨⟨Except.ok ["default", "kube-system", "kube-public"],
        fun _ => Except.ok ["web-1", "web-2", "cache-1"]⟩, []⟩
      ["default", "kube-system", "kube-public"] ["web-1", "web-2", "cache-1"]
      rfl (by decide) rfl rfl).1
  rw [h]
  rfl

/-- C8: empty lister results are valid non-error states (empty scope and object lists
give an empty component list), the operation raises no error of its own when the lister
succeeds, and a lister failure is propagated unchanged. -/
theorem get_components_empty_and_errors :
    (∀ api : CoreV1Api, api.list_namespace = Except.ok []
        → api.list_namespaced_pod "default" = Except.ok []
        → (Cluster.get_components ⟨api, []⟩).1 = Except.ok [])
    ∧ (∀ c : Cluster, ∀ e : String, c.core_v1_api.list_namespace = Except.error e
        → (c.get_components).1 = Except.error e)
    ∧ (∀ c : Cluster, ∀ e : String, ∀ scopes : List String,
        c.core_v1_api.list_namespace = Except.ok scopes
        → Cluster.remove_defaults scopes = []
        → lookupKey "default" c.namespaced_pods = none
        → c.core_v1_api.list_namespaced_pod "default" = Except.error e
        → (c.get_components).1 = Except.error e)
    ∧ (∀ c : Cluster, ∀ scopes objs : List String,
        c.core_v1_api.list_namespace = Except.ok scopes
        → c.core_v1_api.list_namespaced_pod "default" = Except.ok objs
        → ∃ comps, (c.get_components).1 = Except.ok comps) := by
  refine ⟨fun api h1 h4 => ?_, fun c e h1 => ?_, fun c e scopes h1 h2 h3 h4 => ?_,
    fun c scopes objs h1 h4 => ?_⟩
  · simp [Cluster.get_components, Cluster.get_namespaces, Cluster.get_namespaced_pods,
      h1, h4, lookupKey, Cluster.remove_defaults, Cluster.process_cluster_objects,
      count_first_word, sort_dict_by_value]
  · simp [Cluster.get_components, Cluster.get_namespaces, h1]
  · have hempty : (Cluster.remove_defaults scopes).isEmpty = true := by simp [h2]
    simp [Cluster.get_components, Cluster.get_namespaces, Cluster.get_namespaced_pods,
      h1, hempty, h3, h4]
  · by_cases hre : (Cluster.remove_defaults scopes).isEmpty = true
    · cases hl : lookupKey "default" c.namespaced_pods with
      | some pods =>
        refine ⟨Cluster.process_cluster_objects pods, ?_⟩
        simp [Cluster.get_components, Cluster.get_namespaces,
          Cluster.get_namespaced_pods, h1, hre, hl]
      | none =>
        refine ⟨Cluster.process_cluster_objects objs, ?_⟩
        simp [Cluster.get_components, Cluster.get_namespaces,
          Cluster.get_namespaced_pods, h1, hre, hl, h4]
    · refine ⟨(Cluster.remove_defaults scopes).map
        (fun ns => Component.mk (get_first_word ns '-')), ?_⟩
      simp [Cluster.get_components, Cluster.get_namespaces, h1, hre, List.map_map,
        Function.comp]

/-- C8 witness: a lister returning an empty scope list and an empty default-scope object
list yields an empty component list without error. -/
theorem get_components_empty_and_errors_witness :
    (Cluster.get_components ⟨⟨Except.ok [], fun _ => Except.ok []⟩, []⟩).1
      = Except.ok [] :=
  get_components_empty_and_errors.1 ⟨Except.ok [], fun _ => Except.ok []⟩ rfl rfl

/-- C9: in the fallback path the derived component names are pairwise distinct (counting
collapses duplicate tokens into one dict key), whereas the namespace path may return
duplicate names, as two scopes sharing a first token show. -/
theorem fallback_components_distinct :
    (∀ objs : List String,
        ((Cluster.process_cluster_objects objs).map Component.name).Nodup)
    ∧ (Cluster.get_components
          ⟨⟨Except.ok ["teamA-prod", "teamA-dev"], fun _ => Except.ok []⟩, []⟩).1
        = Except.ok [Component.mk "teamA", Component.mk "teamA"]
    ∧ ¬ ([Component.mk "teamA", Component.mk "teamA"].map Component.name).Nodup := by
  refine ⟨fun objs => ?_, by rfl, by decide⟩
  have hperm : List.Perm ((sort_dict_by_value (count_first_word objs)).map Prod.fst)
      ((count_first_word objs).map Prod.fst) :=
    (sort_dict_by_value_perm (count_first_word objs)).map Prod.fst
  have heq : ((Cluster.process_cluster_objects objs).map Component.name)
      = (sort_dict_by_value (count_first_word objs)).map Prod.fst := by
    simp [Cluster.process_cluster_objects, List.map_map, Function.comp]
  rw [heq]
  exact hperm.nodup_iff.mpr (nodup_keys_count_first_word objs)
